import Mathlib

/-!
Verification of the word-selection and live-diff engine of a terminal
typing-trainer (Rust sources in `src/src/main.rs`).

The diff engine (`Game::calculate_spans`) is embedded as two phases,
exactly mirroring the two loops of the source:
* `classify` — the character-classification loop over the peekable
  iterators of the target phrase and the input buffer;
* `mergeSpans` — the run-merging loop that folds consecutive
  identically-classified characters into one span.

The word selector (`Game::new`) is embedded over an abstract corpus
(list of records as read from the TOML table) with randomness supplied
as an explicit jitter oracle; `usize` products are taken modulo 2^64.
-/

namespace TokiPona

/-- The five span classifications of the source (`enum GameSpan<T>`). -/
inductive GameSpan (T : Type) where
  | Correct : T → GameSpan T
  | Wrong : T → GameSpan T
  | Overflow : T → GameSpan T
  | Skipped : T → GameSpan T
  | Hidden : T → GameSpan T
deriving DecidableEq, Repr

/-- Bare classification tags, used to compare spans by class. -/
inductive SpanClass where
  | Correct | Wrong | Overflow | Skipped | Hidden
deriving DecidableEq, Repr

/-- The class tag of a span. -/
def GameSpan.tag {T : Type} : GameSpan T → SpanClass
  | .Correct _ => .Correct
  | .Wrong _ => .Wrong
  | .Overflow _ => .Overflow
  | .Skipped _ => .Skipped
  | .Hidden _ => .Hidden

/-- The payload of a span (`GameSpan<T>` carries exactly one `T`). -/
def GameSpan.value {T : Type} : GameSpan T → T
  | .Correct v => v
  | .Wrong v => v
  | .Overflow v => v
  | .Skipped v => v
  | .Hidden v => v

/-- `GameSpan::map` of the source: apply `f` to the payload, keeping the class. -/
def GameSpan.map {T T2 : Type} (f : T → T2) : GameSpan T → GameSpan T2
  | .Correct v => .Correct (f v)
  | .Wrong v => .Wrong (f v)
  | .Overflow v => .Overflow (f v)
  | .Skipped v => .Skipped (f v)
  | .Hidden v => .Hidden (f v)

/-- The classification loop of `Game::calculate_spans` (first `loop` of the
source): peek at the next target and input characters and emit one classified
character per iteration, consuming as the corresponding match arm does. -/
def classify (t i : List Char) : List (GameSpan Char) :=
  match t, i with
  | tc :: tr, ic :: ir =>
    if tc = ic then .Correct tc :: classify tr ir
    else if ic = ' ' then .Skipped tc :: classify tr (ic :: ir)
    else if tc = ' ' then .Overflow ic :: classify (tc :: tr) ir
    else .Wrong tc :: classify tr ir
  | [], ic :: ir => .Overflow ic :: classify [] ir
  | tc :: tr, [] => .Hidden (if tc = ' ' then ' ' else '_') :: classify tr []
  | [], [] => []
termination_by t.length + i.length
decreasing_by all_goals simp <;> omega

/-- Append one character to the accumulated text of a span
(`s_span.push(*c_span)` in the source). -/
def GameSpan.push : GameSpan (List Char) → Char → GameSpan (List Char)
  | .Correct v, c => .Correct (v ++ [c])
  | .Wrong v, c => .Wrong (v ++ [c])
  | .Overflow v, c => .Overflow (v ++ [c])
  | .Skipped v, c => .Skipped (v ++ [c])
  | .Hidden v, c => .Hidden (v ++ [c])

/-- One iteration of the merging loop of `Game::calculate_spans`: if the last
output span has the same class as the next classified character, push the
character onto it, otherwise start a new single-character span
(`c_span.map(ToString::to_string)`). -/
def mergePush (acc : List (GameSpan (List Char))) (c : GameSpan Char) :
    List (GameSpan (List Char)) :=
  match acc.getLast? with
  | some lastSpan =>
    if lastSpan.tag = c.tag then acc.dropLast ++ [lastSpan.push c.value]
    else acc ++ [c.map (fun ch => [ch])]
  | none => [c.map (fun ch => [ch])]

/-- The merging loop of `Game::calculate_spans` (second `loop` of the source),
starting from the cleared `self.spans`. -/
def mergeSpans (l : List (GameSpan Char)) : List (GameSpan (List Char)) :=
  l.foldl mergePush []

/-- `Game::calculate_spans`: classify every position, then merge runs. -/
def calculate_spans (target input : List Char) : List (GameSpan (List Char)) :=
  mergeSpans (classify target input)

/-- Expansion of one merged span back into its classified characters. -/
def GameSpan.expand : GameSpan (List Char) → List (GameSpan Char)
  | .Correct v => v.map .Correct
  | .Wrong v => v.map .Wrong
  | .Overflow v => v.map .Overflow
  | .Skipped v => v.map .Skipped
  | .Hidden v => v.map .Hidden

/-- Character-level view of a merged span sequence: each span replaced by its
classified characters, in order.  Concatenating span texts while remembering
each character's class. -/
def unmerge (l : List (GameSpan (List Char))) : List (GameSpan Char) :=
  (l.map GameSpan.expand).flatten

/-- Is a class one of the target-consuming ones (Correct/Wrong/Skipped/Hidden)? -/
def SpanClass.targetDerived : SpanClass → Bool
  | .Correct => true
  | .Wrong => true
  | .Overflow => false
  | .Skipped => true
  | .Hidden => true

/-- Is a class one of the input-consuming ones (Correct/Wrong/Overflow)? -/
def SpanClass.inputDerived : SpanClass → Bool
  | .Correct => true
  | .Wrong => true
  | .Overflow => true
  | .Skipped => false
  | .Hidden => false

/-- Is a class `Overflow`? -/
def SpanClass.isOverflow : SpanClass → Bool
  | .Correct => false
  | .Wrong => false
  | .Overflow => true
  | .Skipped => false
  | .Hidden => false

/-- Is a class `Hidden`? -/
def SpanClass.isHidden : SpanClass → Bool
  | .Correct => false
  | .Wrong => false
  | .Overflow => false
  | .Skipped => false
  | .Hidden => true

/-- Is a class one of Correct/Wrong/Skipped (target text recorded verbatim)? -/
def SpanClass.isCWS : SpanClass → Bool
  | .Correct => true
  | .Wrong => true
  | .Overflow => false
  | .Skipped => true
  | .Hidden => false

/-- The characters of the classified characters whose class satisfies `p`. -/
def rawChars (p : SpanClass → Bool) (l : List (GameSpan Char)) : List Char :=
  (l.filter (fun s => p s.tag)).map GameSpan.value

/-- Concatenation of the texts of the merged spans whose class satisfies `p`,
in order. -/
def spanText (p : SpanClass → Bool) (l : List (GameSpan (List Char))) : List Char :=
  ((l.filter (fun s => p s.tag)).map GameSpan.value).flatten

/-- Per-position agreement between a target-derived classified character and
the corresponding target character: Correct/Wrong/Skipped record the target
character itself, Hidden records the target space or the placeholder. -/
def matchEntry : GameSpan Char → Char → Prop
  | .Correct c, tc => c = tc
  | .Wrong c, tc => c = tc
  | .Skipped c, tc => c = tc
  | .Hidden c, tc => c = (if tc = ' ' then ' ' else '_')
  | .Overflow _, _ => False

/-- The target-derived classified characters, in order. -/
def targetSpans (l : List (GameSpan Char)) : List (GameSpan Char) :=
  l.filter (fun s => s.tag.targetDerived)

/-- The classification loop with an explicit iteration budget, `none` meaning
the budget ran out before the loop reached its exit arm.  Used to state that
the source's unbounded `loop` terminates. -/
def classifyFuel : Nat → List Char → List Char → Option (List (GameSpan Char))
  | 0, _, _ => none
  | n + 1, t, i =>
    match t, i with
    | tc :: tr, ic :: ir =>
      if tc = ic then (classifyFuel n tr ir).map (GameSpan.Correct tc :: ·)
      else if ic = ' ' then (classifyFuel n tr (ic :: ir)).map (GameSpan.Skipped tc :: ·)
      else if tc = ' ' then (classifyFuel n (tc :: tr) ir).map (GameSpan.Overflow ic :: ·)
      else (classifyFuel n tr ir).map (GameSpan.Wrong tc :: ·)
    | [], ic :: ir => (classifyFuel n [] ir).map (GameSpan.Overflow ic :: ·)
    | tc :: tr, [] =>
      (classifyFuel n tr []).map (GameSpan.Hidden (if tc = ' ' then ' ' else '_') :: ·)
    | [], [] => some []

/-- The per-position classification rules exactly as the specification words
them (claim C2), as an inductive derivation relation: one constructor per
rule, each guarded by the inapplicability of every higher-priority rule. -/
inductive SpecRules : List Char → List Char → List (GameSpan Char) → Prop where
  | correct (tc : Char) (tr ir : List Char) (l : List (GameSpan Char)) :
      SpecRules tr ir l → SpecRules (tc :: tr) (tc :: ir) (.Correct tc :: l)
  | skipped (tc : Char) (tr ir : List Char) (l : List (GameSpan Char)) :
      tc ≠ ' ' → SpecRules tr (' ' :: ir) l →
      SpecRules (tc :: tr) (' ' :: ir) (.Skipped tc :: l)
  | overflowEnd (ic : Char) (ir : List Char) (l : List (GameSpan Char)) :
      SpecRules [] ir l → SpecRules [] (ic :: ir) (.Overflow ic :: l)
  | overflowSpace (ic : Char) (tr ir : List Char) (l : List (GameSpan Char)) :
      ic ≠ ' ' → SpecRules (' ' :: tr) ir l →
      SpecRules (' ' :: tr) (ic :: ir) (.Overflow ic :: l)
  | wrong (tc ic : Char) (tr ir : List Char) (l : List (GameSpan Char)) :
      tc ≠ ic → ic ≠ ' ' → tc ≠ ' ' → SpecRules tr ir l →
      SpecRules (tc :: tr) (ic :: ir) (.Wrong tc :: l)
  | hidden (tc : Char) (tr : List Char) (l : List (GameSpan Char)) :
      SpecRules tr [] l →
      SpecRules (tc :: tr) [] (.Hidden (if tc = ' ' then ' ' else '_') :: l)
  | done : SpecRules [] [] []

/-- A corpus record as read from the words TOML table: only the fields the
selector touches, each an `Option` because the `toml.get`/`as_str`/`as_bool`
chains can come up empty. -/
structure CorpusRecord where
  usage_category : Option String
  deprecated : Option Bool
  word : Option String
deriving DecidableEq, Repr

/-- `GameSettings<usize>` of the source; the per-word override map is kept as
an association list. -/
structure GameSettings where
  core : Nat
  common : Nat
  uncommon : Nat
  obscure : Nat
  sandbox : Nat
  deprecated : Nat
  nondeprecated : Nat
  words : List (String × Nat)
  len : Nat
deriving Repr

/-- `GameSettings::DEFAULT`. -/
def GameSettings.DEFAULT : Nat := 1000

/-- `GameSettings::get_word`: the per-word override, defaulting to `DEFAULT`. -/
def GameSettings.get_word (s : GameSettings) (w : String) : Nat :=
  (s.words.lookup w).getD GameSettings.DEFAULT

/-- The `Default` impl for `GameSettings<usize>`. -/
def GameSettings.default : GameSettings where
  core := GameSettings.DEFAULT
  common := GameSettings.DEFAULT * 200
  uncommon := GameSettings.DEFAULT * 400
  obscure := GameSettings.DEFAULT * 600
  sandbox := GameSettings.DEFAULT * 800
  deprecated := GameSettings.DEFAULT * 800
  nondeprecated := GameSettings.DEFAULT
  words := []
  len := 60

/-- The modulus of `usize` products on a 64-bit target. -/
def USIZE : Nat := 2 ^ 64

/-- The category factor of the sort key: the `match` over `usage_category`.
`none` models both the `expect("failed to get category")` panic on a missing
or non-string field and the `todo!()` panic on an unrecognized category. -/
def categoryWeight (s : GameSettings) (r : CorpusRecord) : Option Nat :=
  match r.usage_category with
  | some "core" => some s.core
  | some "common" => some s.common
  | some "uncommon" => some s.uncommon
  | some "obscure" => some s.obscure
  | some "sandbox" => some s.sandbox
  | some _ => none
  | none => none

/-- The deprecation factor of the sort key; `none` models the
`expect("failed to get deprecation")` panic. -/
def deprecatedWeight (s : GameSettings) (r : CorpusRecord) : Option Nat :=
  r.deprecated.map (fun b => if b then s.deprecated else s.nondeprecated)

/-- The per-word factor of the sort key; `none` models the
`expect("failed to get word field")` panic. -/
def wordWeight (s : GameSettings) (r : CorpusRecord) : Option Nat :=
  r.word.map (fun w => s.get_word w)

/-- The cached sort key of one record: the `usize` product of the three
weight factors and the jitter sample `rand::random_range(900..1100)`. -/
def recordKey (s : GameSettings) (r : CorpusRecord) (jit : Nat) : Option Nat :=
  match categoryWeight s r, deprecatedWeight s r, wordWeight s r with
  | some cw, some dw, some ww => some (cw * dw * ww * jit % USIZE)
  | _, _, _ => none

/-- Compute every record's cached key in corpus order (the key pre-computation
pass of `sort_by_cached_key`), the jitter oracle supplying the random sample
for the record at each index; `none` if any key computation panics. -/
def keyedRecords (s : GameSettings) (jitter : Nat → Nat) :
    Nat → List CorpusRecord → Option (List (CorpusRecord × Nat))
  | _, [] => some []
  | idx, r :: rs =>
    match recordKey s r (jitter idx), keyedRecords s jitter (idx + 1) rs with
    | some k, some rest => some ((r, k) :: rest)
    | _, _ => none

/-- Stable insertion by key: an element goes before the first strictly larger
key, so among equal keys the earlier (corpus-order) element stays first. -/
def insertKeyed (x : CorpusRecord × Nat) :
    List (CorpusRecord × Nat) → List (CorpusRecord × Nat)
  | [] => [x]
  | y :: ys => if x.2 ≤ y.2 then x :: y :: ys else y :: insertKeyed x ys

/-- Stable ascending sort by cached key, modelling the stability and ordering
contract of `slice::sort_by_cached_key`. -/
def sortKeyed : List (CorpusRecord × Nat) → List (CorpusRecord × Nat)
  | [] => []
  | x :: xs => insertKeyed x (sortKeyed xs)

/-- Build the target string from the extracted words: first word verbatim,
then `push(' '); push_str(word)` for each following word; `none` models the
`expect("words list was empty")` panic. -/
def joinWords : List String → Option String
  | [] => none
  | w :: rest => some (rest.foldl (fun acc x => acc ++ " " ++ x) w)

/-- The target-phrase computation of `Game::new`: compute all cached keys,
sort ascending (stable), truncate to `settings.len`, extract each record's
`word` field (entries without one are dropped by the `filter_map`), and join
with single spaces. -/
def Game.new_target (s : GameSettings) (corpus : List CorpusRecord)
    (jitter : Nat → Nat) : Option String :=
  match keyedRecords s jitter 0 corpus with
  | none => none
  | some keyed =>
    let sorted := (sortKeyed keyed).map Prod.fst
    let truncated := sorted.take s.len
    joinWords (truncated.filterMap (fun r => r.word))

/-- The five category strings the sort-key `match` recognizes. -/
def RecognizedCategory (c : String) : Prop :=
  c = "core" ∨ c = "common" ∨ c = "uncommon" ∨ c = "obscure" ∨ c = "sandbox"

/-- A record on which the weight computation does not panic. -/
def WellFormed (r : CorpusRecord) : Prop :=
  (∃ c, r.usage_category = some c ∧ RecognizedCategory c) ∧
    (∃ b, r.deprecated = some b) ∧ (∃ w, r.word = some w)

/-- A sample well-formed corpus record. -/
def sampleRecord : CorpusRecord :=
  { usage_category := some "core", deprecated := some false, word := some "toki" }

/-- A record missing its `word` field. -/
def noWordRecord : CorpusRecord :=
  { usage_category := some "core", deprecated := some false, word := none }

theorem tag_map {T T2 : Type} (f : T → T2) (s : GameSpan T) :
    (s.map f).tag = s.tag := by
  cases s <;> rfl

theorem tag_push (s : GameSpan (List Char)) (c : Char) :
    (s.push c).tag = s.tag := by
  cases s <;> rfl

theorem expand_push (s : GameSpan (List Char)) (c : Char) :
    (s.push c).expand = s.expand ++ [GameSpan.map (fun _ => c) s] := by
  cases s <;> simp [GameSpan.push, GameSpan.expand, GameSpan.map]

theorem map_const_value {a : GameSpan (List Char)} {b : GameSpan Char}
    (h : a.tag = b.tag) : GameSpan.map (fun _ => b.value) a = b := by
  cases a <;> cases b <;> simp_all [GameSpan.tag, GameSpan.map, GameSpan.value]

theorem expand_single (c : GameSpan Char) :
    (c.map (fun ch => [ch])).expand = [c] := by
  cases c <;> rfl

theorem unmerge_append (l₁ l₂ : List (GameSpan (List Char))) :
    unmerge (l₁ ++ l₂) = unmerge l₁ ++ unmerge l₂ := by
  simp [unmerge]

theorem mergePush_nil (c : GameSpan Char) :
    mergePush [] c = [c.map (fun ch => [ch])] := rfl

theorem mergePush_concat (as : List (GameSpan (List Char))) (a : GameSpan (List Char))
    (c : GameSpan Char) :
    mergePush (as ++ [a]) c =
      if a.tag = c.tag then as ++ [a.push c.value]
      else (as ++ [a]) ++ [c.map (fun ch => [ch])] := by
  rw [mergePush, List.getLast?_concat]
  simp [List.dropLast_concat]

theorem unmerge_mergePush (acc : List (GameSpan (List Char))) (c : GameSpan Char) :
    unmerge (mergePush acc c) = unmerge acc ++ [c] := by
  induction acc using List.reverseRecOn with
  | nil => simp [mergePush_nil, unmerge, expand_single]
  | append_singleton as a _ =>
    rw [mergePush_concat]
    by_cases h : a.tag = c.tag
    · simp [if_pos h, unmerge, expand_push, map_const_value h]
    · simp [if_neg h, unmerge, expand_single]

theorem unmerge_foldl (l : List (GameSpan Char)) (acc : List (GameSpan (List Char))) :
    unmerge (l.foldl mergePush acc) = unmerge acc ++ l := by
  induction l generalizing acc with
  | nil => simp
  | cons c cs ih => simp [List.foldl_cons, ih, unmerge_mergePush]

/-- The merging loop loses no information: expanding the merged spans gives
back exactly the classified characters. -/
theorem unmerge_mergeSpans (l : List (GameSpan Char)) : unmerge (mergeSpans l) = l := by
  rw [mergeSpans, unmerge_foldl]
  simp [unmerge]

theorem rawChars_append (p : SpanClass → Bool) (l₁ l₂ : List (GameSpan Char)) :
    rawChars p (l₁ ++ l₂) = rawChars p l₁ ++ rawChars p l₂ := by
  simp [rawChars]

theorem rawChars_expand (p : SpanClass → Bool) (s : GameSpan (List Char)) :
    rawChars p s.expand = if p s.tag then s.value else [] := by
  cases s <;>
    simp [rawChars, GameSpan.expand, GameSpan.tag, List.filter_map, Function.comp_def] <;>
    split <;>
    simp_all [GameSpan.value, Function.comp_def]

/-- Text extraction commutes with unmerging: the concatenated texts of the
`p`-classified merged spans are the characters of the `p`-classified raw spans. -/
theorem spanText_eq_rawChars (p : SpanClass → Bool) (m : List (GameSpan (List Char))) :
    spanText p m = rawChars p (unmerge m) := by
  induction m with
  | nil => simp [spanText, unmerge, rawChars]
  | cons s ms ih =>
    have hcons : unmerge (s :: ms) = s.expand ++ unmerge ms := by
      simp [unmerge]
    rw [hcons, rawChars_append, rawChars_expand, ← ih]
    by_cases h : p s.tag <;> simp [spanText, h]

theorem rawChars_cons (p : SpanClass → Bool) (s : GameSpan Char) (l : List (GameSpan Char)) :
    rawChars p (s :: l) = (if p s.tag then [s.value] else []) ++ rawChars p l := by
  simp only [rawChars, List.filter_cons]
  split <;> simp

theorem chain'_mergePush (c : GameSpan Char) {acc : List (GameSpan (List Char))}
    (h : List.Chain' (fun a b => a.tag ≠ b.tag) acc) :
    List.Chain' (fun a b => a.tag ≠ b.tag) (mergePush acc c) := by
  induction acc using List.reverseRecOn with
  | nil => simp [mergePush_nil]
  | append_singleton as a _ =>
    rw [mergePush_concat]
    by_cases htag : a.tag = c.tag
    · rw [if_pos htag]
      rw [List.chain'_append] at h ⊢
      refine ⟨h.1, by simp, ?_⟩
      intro x hx y hy
      simp at hy
      subst hy
      rw [tag_push]
      exact h.2.2 x hx a (by simp)
    · rw [if_neg htag]
      rw [List.chain'_append]
      refine ⟨h, by simp, ?_⟩
      intro x hx y hy
      simp at hx hy
      subst hy
      subst hx
      rw [tag_map]
      exact htag

theorem chain'_foldl_mergePush (l : List (GameSpan Char))
    (acc : List (GameSpan (List Char)))
    (h : List.Chain' (fun a b => a.tag ≠ b.tag) acc) :
    List.Chain' (fun a b => a.tag ≠ b.tag) (l.foldl mergePush acc) := by
  induction l generalizing acc with
  | nil => exact h
  | cons c cs ih => exact ih _ (chain'_mergePush c h)

theorem targetSpans_classify (t i : List Char) :
    List.Forall₂ matchEntry (targetSpans (classify t i)) t := by
  induction t, i using classify.induct with
  | case1 tr ic ir ih =>
    rw [classify]
    simpa [targetSpans, GameSpan.tag, SpanClass.targetDerived, matchEntry] using ih
  | case2 tc tr ir h ih =>
    rw [classify]
    simpa [h, targetSpans, GameSpan.tag, SpanClass.targetDerived, matchEntry] using ih
  | case3 tr ic ir h h2 ih =>
    rw [classify]
    simpa [h, h2, targetSpans, GameSpan.tag, SpanClass.targetDerived] using ih
  | case4 tc tr ic ir h h2 h3 ih =>
    rw [classify]
    simpa [h, h2, h3, targetSpans, GameSpan.tag, SpanClass.targetDerived, matchEntry] using ih
  | case5 ic ir ih =>
    rw [classify]
    simpa [targetSpans, GameSpan.tag, SpanClass.targetDerived] using ih
  | case6 tc tr ih =>
    rw [classify]
    simpa [targetSpans, GameSpan.tag, SpanClass.targetDerived, matchEntry] using ih
  | case7 =>
    rw [classify]
    simp [targetSpans]

theorem overflow_sublist_classify (t i : List Char) :
    (rawChars SpanClass.isOverflow (classify t i)).Sublist i := by
  induction t, i using classify.induct with
  | case1 tr ic ir ih =>
    rw [classify]
    simp [rawChars_cons, GameSpan.tag, SpanClass.isOverflow]
    exact ih.cons ic
  | case2 tc tr ir h ih =>
    rw [classify]
    simpa [h, rawChars_cons, GameSpan.tag, SpanClass.isOverflow] using ih
  | case3 tr ic ir h h2 ih =>
    rw [classify]
    simp [h, h2, rawChars_cons, GameSpan.tag, SpanClass.isOverflow, GameSpan.value]
    exact ih
  | case4 tc tr ic ir h h2 h3 ih =>
    rw [classify]
    simp [h, h2, h3, rawChars_cons, GameSpan.tag, SpanClass.isOverflow]
    exact ih.cons ic
  | case5 ic ir ih =>
    rw [classify]
    simp [rawChars_cons, GameSpan.tag, SpanClass.isOverflow, GameSpan.value]
    exact ih
  | case6 tc tr ih =>
    rw [classify]
    simpa [rawChars_cons, GameSpan.tag, SpanClass.isOverflow] using ih
  | case7 =>
    rw [classify]
    simp [rawChars]

theorem cws_sublist_classify (t i : List Char) :
    (rawChars SpanClass.isCWS (classify t i)).Sublist t := by
  induction t, i using classify.induct with
  | case1 tr ic ir ih =>
    rw [classify]
    simp [rawChars_cons, GameSpan.tag, SpanClass.isCWS, GameSpan.value]
    exact ih
  | case2 tc tr ir h ih =>
    rw [classify]
    simp [h, rawChars_cons, GameSpan.tag, SpanClass.isCWS, GameSpan.value]
    exact ih
  | case3 tr ic ir h h2 ih =>
    rw [classify]
    simpa [h, h2, rawChars_cons, GameSpan.tag, SpanClass.isCWS] using ih
  | case4 tc tr ic ir h h2 h3 ih =>
    rw [classify]
    simp [h, h2, h3, rawChars_cons, GameSpan.tag, SpanClass.isCWS, GameSpan.value]
    exact ih
  | case5 ic ir ih =>
    rw [classify]
    simpa [rawChars_cons, GameSpan.tag, SpanClass.isOverflow, SpanClass.isCWS] using ih
  | case6 tc tr ih =>
    rw [classify]
    simp [rawChars_cons, GameSpan.tag, SpanClass.isCWS]
    exact ih.cons tc
  | case7 =>
    rw [classify]
    simp [rawChars]

theorem hidden_chars_classify (t i : List Char) :
    ∀ c ∈ rawChars SpanClass.isHidden (classify t i), c = ' ' ∨ c = '_' := by
  induction t, i using classify.induct with
  | case1 tr ic ir ih =>
    rw [classify]
    simpa [rawChars_cons, GameSpan.tag, SpanClass.isHidden] using ih
  | case2 tc tr ir h ih =>
    rw [classify]
    simpa [h, rawChars_cons, GameSpan.tag, SpanClass.isHidden] using ih
  | case3 tr ic ir h h2 ih =>
    rw [classify]
    simpa [h, h2, rawChars_cons, GameSpan.tag, SpanClass.isHidden] using ih
  | case4 tc tr ic ir h h2 h3 ih =>
    rw [classify]
    simpa [h, h2, h3, rawChars_cons, GameSpan.tag, SpanClass.isHidden] using ih
  | case5 ic ir ih =>
    rw [classify]
    simpa [rawChars_cons, GameSpan.tag, SpanClass.isHidden] using ih
  | case6 tc tr ih =>
    rw [classify]
    simp [rawChars_cons, GameSpan.tag, SpanClass.isHidden, GameSpan.value]
    constructor
    · exact eq_or_ne tc ' '
    · exact ih
  | case7 =>
    rw [classify]
    simp [rawChars]

theorem targetDerived_length_classify (t i : List Char) :
    (rawChars SpanClass.targetDerived (classify t i)).length = t.length := by
  induction t, i using classify.induct with
  | case1 tr ic ir ih =>
    rw [classify]
    simp [rawChars_cons, GameSpan.tag, SpanClass.targetDerived, ih]
  | case2 tc tr ir h ih =>
    rw [classify]
    simp [h, rawChars_cons, GameSpan.tag, SpanClass.targetDerived, ih]
  | case3 tr ic ir h h2 ih =>
    rw [classify]
    simpa [h, h2, rawChars_cons, GameSpan.tag, SpanClass.targetDerived] using ih
  | case4 tc tr ic ir h h2 h3 ih =>
    rw [classify]
    simp [h, h2, h3, rawChars_cons, GameSpan.tag, SpanClass.targetDerived, ih]
  | case5 ic ir ih =>
    rw [classify]
    simpa [rawChars_cons, GameSpan.tag, SpanClass.targetDerived] using ih
  | case6 tc tr ih =>
    rw [classify]
    simp [rawChars_cons, GameSpan.tag, SpanClass.targetDerived, ih]
  | case7 =>
    rw [classify]
    simp [rawChars]

theorem inputDerived_length_classify (t i : List Char) :
    (rawChars SpanClass.inputDerived (classify t i)).length = i.length := by
  induction t, i using classify.induct with
  | case1 tr ic ir ih =>
    rw [classify]
    simp [rawChars_cons, GameSpan.tag, SpanClass.inputDerived, ih]
  | case2 tc tr ir h ih =>
    rw [classify]
    simpa [h, rawChars_cons, GameSpan.tag, SpanClass.inputDerived] using ih
  | case3 tr ic ir h h2 ih =>
    rw [classify]
    simp [h, h2, rawChars_cons, GameSpan.tag, SpanClass.inputDerived, ih]
  | case4 tc tr ic ir h h2 h3 ih =>
    rw [classify]
    simp [h, h2, h3, rawChars_cons, GameSpan.tag, SpanClass.inputDerived, ih]
  | case5 ic ir ih =>
    rw [classify]
    simp [rawChars_cons, GameSpan.tag, SpanClass.inputDerived, ih]
  | case6 tc tr ih =>
    rw [classify]
    simpa [rawChars_cons, GameSpan.tag, SpanClass.inputDerived] using ih
  | case7 =>
    rw [classify]
    simp [rawChars]

theorem classifyFuel_sufficient (n : Nat) (t i : List Char)
    (h : t.length + i.length < n) : classifyFuel n t i = some (classify t i) := by
  induction n generalizing t i with
  | zero => omega
  | succ n ih =>
    cases t with
    | nil =>
      cases i with
      | nil =>
        rw [classify]
        simp [classifyFuel]
      | cons ic ir =>
        rw [classify]
        simp only [classifyFuel]
        rw [ih [] ir (by simp at h ⊢; omega)]
        rfl
    | cons tc tr =>
      cases i with
      | nil =>
        rw [classify]
        simp only [classifyFuel]
        rw [ih tr [] (by simp at h ⊢; omega)]
        rfl
      | cons ic ir =>
        rw [classify]
        simp only [classifyFuel]
        by_cases h1 : tc = ic
        · rw [if_pos h1, if_pos h1, ih tr ir (by simp at h ⊢; omega)]
          rfl
        · rw [if_neg h1, if_neg h1]
          by_cases h2 : ic = ' '
          · rw [if_pos h2, if_pos h2, ih tr (ic :: ir) (by simp at h ⊢; omega)]
            rfl
          · rw [if_neg h2, if_neg h2]
            by_cases h3 : tc = ' '
            · rw [if_pos h3, if_pos h3, ih (tc :: tr) ir (by simp at h ⊢; omega)]
              rfl
            · rw [if_neg h3, if_neg h3, ih tr ir (by simp at h ⊢; omega)]
              rfl

theorem specRules_classify (t i : List Char) : SpecRules t i (classify t i) := by
  induction t, i using classify.induct with
  | case1 tr ic ir ih =>
    rw [classify]
    simp only [if_pos rfl]
    exact .correct ic tr ir _ ih
  | case2 tc tr ir h ih =>
    rw [classify]
    simp only [if_neg h, if_pos rfl]
    exact .skipped tc tr ir _ h ih
  | case3 tr ic ir h h2 ih =>
    rw [classify]
    simp only [if_neg h2, if_neg h, if_pos rfl]
    exact .overflowSpace ic tr ir _ h ih
  | case4 tc tr ic ir h h2 h3 ih =>
    rw [classify]
    simp only [if_neg h, if_neg h2, if_neg h3]
    exact .wrong tc ic tr ir _ h h2 h3 ih
  | case5 ic ir ih =>
    rw [classify]
    exact .overflowEnd ic ir _ ih
  | case6 tc tr ih =>
    rw [classify]
    exact .hidden tc tr _ ih
  | case7 =>
    rw [classify]
    exact .done

theorem specRules_unique {t i : List Char} {l : List (GameSpan Char)}
    (h : SpecRules t i l) : l = classify t i := by
  induction h with
  | correct tc tr ir l _ ih =>
    rw [classify]
    simp [ih]
  | skipped tc tr ir l hg _ ih =>
    rw [classify]
    simp [hg, ih]
  | overflowEnd ic ir l _ ih =>
    rw [classify]
    simp [ih]
  | overflowSpace ic tr ir l hg _ ih =>
    rw [classify]
    simp [hg, hg.symm, ih]
  | wrong tc ic tr ir l hg1 hg2 hg3 _ ih =>
    rw [classify]
    simp [hg1, hg2, hg3, ih]
  | hidden tc tr l _ ih =>
    rw [classify]
    simp [ih]
  | done =>
    rw [classify]

theorem spanText_calculate (p : SpanClass → Bool) (t i : List Char) :
    spanText p (calculate_spans t i) = rawChars p (classify t i) := by
  rw [calculate_spans, spanText_eq_rawChars, unmerge_mergeSpans]

theorem classify_eval (t i : List Char) (l : List (GameSpan Char))
    (h : classifyFuel (t.length + i.length + 1) t i = some l) : classify t i = l := by
  have hs := classifyFuel_sufficient (t.length + i.length + 1) t i (by omega)
  rw [hs] at h
  exact Option.some.inj h

/-- C1, counterexample: for target `"a"` and empty input the concatenation of
the target-derived span texts is `"_"`, not the target `"a"` — the Hidden span
masks the un-typed character instead of reproducing it. -/
theorem targetText_not_target :
    spanText SpanClass.targetDerived (calculate_spans ['a'] []) ≠ ['a'] := by
  have h : classify ['a'] [] = [.Hidden '_'] := classify_eval _ _ _ (by decide)
  rw [calculate_spans, h]
  decide

/-- C1 (amended): concatenating the texts of the target-derived spans
(Correct, Wrong, Skipped, Hidden) of `calculate_spans`, in order, reproduces
the target phrase position by position, except that a Hidden character is the
target character only when that character is a space and is the placeholder
`'_'` otherwise; Overflow span texts are a subsequence of the input buffer,
insertions consuming no target character. -/
theorem targetText_masked_reconstruction (t i : List Char) :
    List.Forall₂ matchEntry (targetSpans (unmerge (calculate_spans t i))) t ∧
      (spanText SpanClass.isOverflow (calculate_spans t i)).Sublist i := by
  constructor
  · rw [calculate_spans, unmerge_mergeSpans]
    exact targetSpans_classify t i
  · rw [spanText_calculate]
    exact overflow_sublist_classify t i

/-- C2: the classification loop applies exactly the six priority-ordered rules
of the specification: its output is derivable by those rules, and the rules
derive no other output. -/
theorem classification_rules_sound_unique (t i : List Char) :
    SpecRules t i (classify t i) ∧ ∀ l, SpecRules t i l → l = classify t i :=
  ⟨specRules_classify t i, fun _ h => specRules_unique h⟩

/-- Witness for C2 at a concrete input: the rules derive exactly the code's
output on target `"a"`, input `""`. -/
theorem classification_rules_witness :
    SpecRules ['a'] [] (classify ['a'] []) ∧ [GameSpan.Hidden '_'] = classify ['a'] [] :=
  ⟨(classification_rules_sound_unique ['a'] []).1,
   (classification_rules_sound_unique ['a'] []).2 [.Hidden '_'] (.hidden 'a' [] [] .done)⟩

/-- C3, counterexample: on target `"toki pona"` and input `"toki pan"` the
diff does not produce Correct("toki "), Correct("pan"), Hidden("_") as the
specification example states. -/
theorem toki_pona_example_false :
    calculate_spans "toki pona".toList "toki pan".toList ≠
      [.Correct "toki ".toList, .Correct "pan".toList, .Hidden ['_']] := by
  have h : classify "toki pona".toList "toki pan".toList =
      [.Correct 't', .Correct 'o', .Correct 'k', .Correct 'i', .Correct ' ',
       .Correct 'p', .Wrong 'o', .Correct 'n', .Hidden '_'] :=
    classify_eval _ _ _ (by decide)
  rw [calculate_spans, h]
  decide

/-- C3 (amended): on target `"toki pona"` and input `"toki pan"` the diff
yields Correct("toki p"), Wrong("o"), Correct("n"), Hidden("_"): 7 of the 9
target characters are Correct, the mid-word `o` is Wrong (the typed `a` is
consumed against it), and the final `a` is Hidden. -/
theorem toki_pona_example_actual :
    calculate_spans "toki pona".toList "toki pan".toList =
      [.Correct "toki p".toList, .Wrong ['o'], .Correct ['n'], .Hidden ['_']] := by
  have h : classify "toki pona".toList "toki pan".toList =
      [.Correct 't', .Correct 'o', .Correct 'k', .Correct 'i', .Correct ' ',
       .Correct 'p', .Wrong 'o', .Correct 'n', .Hidden '_'] :=
    classify_eval _ _ _ (by decide)
  rw [calculate_spans, h]
  decide

/-- C6: in every span sequence produced by the diff, no two adjacent spans
carry the same class tag. -/
theorem spans_adjacent_classes_distinct (t i : List Char) :
    List.Chain' (fun a b => a.tag ≠ b.tag) (calculate_spans t i) :=
  chain'_foldl_mergePush (classify t i) [] (by simp)

/-- C7: the comparison loop is total — it terminates within
`|target| + |input| + 1` iterations on every pair, yielding the (possibly
empty) classified sequence rather than running out of budget. -/
theorem classification_loop_terminates (t i : List Char) :
    classifyFuel (t.length + i.length + 1) t i = some (classify t i) :=
  classifyFuel_sufficient _ t i (by omega)

/-- C9: each target character is classified exactly once and each input
character exactly once: the combined Correct/Wrong/Skipped/Hidden text length
equals the target length, and the combined Correct/Wrong/Overflow text length
equals the input length. -/
theorem span_char_counts (t i : List Char) :
    (spanText SpanClass.targetDerived (calculate_spans t i)).length = t.length ∧
      (spanText SpanClass.inputDerived (calculate_spans t i)).length = i.length := by
  rw [spanText_calculate, spanText_calculate]
  exact ⟨targetDerived_length_classify t i, inputDerived_length_classify t i⟩

/-- C10: Correct/Wrong/Skipped span texts are target characters (in order, a
subsequence of the target — in particular Wrong records the expected target
character), Overflow span texts are input characters, and Hidden span texts
contain only spaces and the `'_'` placeholder. -/
theorem span_text_provenance (t i : List Char) :
    (spanText SpanClass.isCWS (calculate_spans t i)).Sublist t ∧
      (spanText SpanClass.isOverflow (calculate_spans t i)).Sublist i ∧
      ∀ c ∈ spanText SpanClass.isHidden (calculate_spans t i), c = ' ' ∨ c = '_' := by
  rw [spanText_calculate, spanText_calculate, spanText_calculate]
  exact ⟨cws_sublist_classify t i, overflow_sublist_classify t i, hidden_chars_classify t i⟩

theorem recordKey_some (s : GameSettings) (r : CorpusRecord) (j : Nat)
    (h : WellFormed r) : ∃ k, recordKey s r j = some k := by
  obtain ⟨⟨c, hc, hrec⟩, ⟨b, hb⟩, ⟨w, hw⟩⟩ := h
  have hcw : ∃ cw, categoryWeight s r = some cw := by
    rcases hrec with h1 | h1 | h1 | h1 | h1 <;> subst h1 <;> simp [categoryWeight, hc]
  obtain ⟨cw, hcw⟩ := hcw
  refine ⟨cw * (if b then s.deprecated else s.nondeprecated) * s.get_word w * j % USIZE, ?_⟩
  simp [recordKey, hcw, deprecatedWeight, wordWeight, hb, hw]

theorem keyedRecords_some (s : GameSettings) (jitter : Nat → Nat)
    (corpus : List CorpusRecord) (hwf : ∀ r ∈ corpus, WellFormed r) (idx : Nat) :
    ∃ kr, keyedRecords s jitter idx corpus = some kr ∧ kr.map Prod.fst = corpus := by
  induction corpus generalizing idx with
  | nil => exact ⟨[], rfl, rfl⟩
  | cons r rs ih =>
    obtain ⟨k, hk⟩ := recordKey_some s r (jitter idx) (hwf r (by simp))
    obtain ⟨kr, hkr, hmap⟩ := ih (fun x hx => hwf x (by simp [hx])) (idx + 1)
    exact ⟨(r, k) :: kr, by simp [keyedRecords, hk, hkr], by simp [hmap]⟩

theorem recordKey_none_of_no_word (s : GameSettings) (r : CorpusRecord) (j : Nat)
    (hw : r.word = none) : recordKey s r j = none := by
  rw [recordKey]
  have : wordWeight s r = none := by simp [wordWeight, hw]
  rw [this]
  cases categoryWeight s r <;> cases deprecatedWeight s r <;> rfl

theorem keyedRecords_none_of_no_word (s : GameSettings) (jitter : Nat → Nat)
    (r : CorpusRecord) (hw : r.word = none) (corpus : List CorpusRecord)
    (hr : r ∈ corpus) (idx : Nat) : keyedRecords s jitter idx corpus = none := by
  induction corpus generalizing idx with
  | nil => cases hr
  | cons x xs ih =>
    rcases List.mem_cons.mp hr with hx | hx
    · subst hx
      rw [keyedRecords, recordKey_none_of_no_word s r (jitter idx) hw]
    · rw [keyedRecords, ih hx (idx + 1)]
      cases recordKey s x (jitter idx) <;> rfl

theorem length_insertKeyed (x : CorpusRecord × Nat) (l : List (CorpusRecord × Nat)) :
    (insertKeyed x l).length = l.length + 1 := by
  induction l with
  | nil => rfl
  | cons y ys ih =>
    rw [insertKeyed]
    split <;> simp [ih]

theorem mem_insertKeyed {y : CorpusRecord × Nat} (x : CorpusRecord × Nat)
    (l : List (CorpusRecord × Nat)) : y ∈ insertKeyed x l ↔ y = x ∨ y ∈ l := by
  induction l with
  | nil => simp [insertKeyed]
  | cons z zs ih =>
    rw [insertKeyed]
    split
    · simp
    · simp [ih]
      tauto

theorem length_sortKeyed (l : List (CorpusRecord × Nat)) :
    (sortKeyed l).length = l.length := by
  induction l with
  | nil => rfl
  | cons x xs ih => rw [sortKeyed, length_insertKeyed, ih, List.length_cons]

theorem mem_sortKeyed {y : CorpusRecord × Nat} (l : List (CorpusRecord × Nat)) :
    y ∈ sortKeyed l ↔ y ∈ l := by
  induction l with
  | nil => simp [sortKeyed]
  | cons x xs ih =>
    rw [sortKeyed, mem_insertKeyed]
    simp [ih]

theorem length_filterMap_word (l : List CorpusRecord)
    (h : ∀ r ∈ l, ∃ w, r.word = some w) :
    (l.filterMap (fun r => r.word)).length = l.length := by
  induction l with
  | nil => rfl
  | cons r rs ih =>
    obtain ⟨w, hw⟩ := h r (by simp)
    rw [List.filterMap_cons, hw]
    simp [ih (fun x hx => h x (by simp [hx]))]

/-- C4, counterexample: with a non-empty, fully well-formed corpus but
requested length 0 the selector yields no phrase at all (the
`expect("words list was empty")` panic) instead of a phrase of
`min(0, 1) = 0` words. -/
theorem select_len_zero_panics :
    Game.new_target { GameSettings.default with len := 0 } [sampleRecord]
      (fun _ => 1000) = none := by
  decide

/-- C4 (amended): for settings with a strictly positive requested length and a
non-empty corpus all of whose records are well formed (recognized category,
deprecation flag, word field), the selector succeeds and the selected word
list has exactly `min(requested length, corpus size)` words, each the `word`
field of a corpus record, joined with single spaces into the target phrase. -/
theorem select_word_count (s : GameSettings) (corpus : List CorpusRecord)
    (jitter : Nat → Nat) (hne : corpus ≠ []) (hlen : 1 ≤ s.len)
    (hwf : ∀ r ∈ corpus, WellFormed r) :
    ∃ ws : List String, ws.length = min s.len corpus.length ∧ ws ≠ [] ∧
      (∀ x ∈ ws, ∃ r, r ∈ corpus ∧ r.word = some x) ∧
      Game.new_target s corpus jitter = joinWords ws := by
  obtain ⟨kr, hkr, hmap⟩ := keyedRecords_some s jitter corpus hwf 0
  have hsortedmem : ∀ x ∈ (sortKeyed kr).map Prod.fst, x ∈ corpus := by
    intro x hx
    rw [List.mem_map] at hx
    obtain ⟨p, hp, hpx⟩ := hx
    rw [mem_sortKeyed] at hp
    rw [← hmap, List.mem_map]
    exact ⟨p, hp, hpx⟩
  have hsortedlen : ((sortKeyed kr).map Prod.fst).length = corpus.length := by
    rw [List.length_map, length_sortKeyed, ← hmap, List.length_map]
  have htruncmem : ∀ x ∈ ((sortKeyed kr).map Prod.fst).take s.len, x ∈ corpus :=
    fun x hx => hsortedmem x (List.take_subset _ _ hx)
  refine ⟨(((sortKeyed kr).map Prod.fst).take s.len).filterMap (fun r => r.word),
    ?_, ?_, ?_, ?_⟩
  · rw [length_filterMap_word _ (fun r hr => (hwf r (htruncmem r hr)).2.2),
      List.length_take, hsortedlen]
  · have hpos : 0 <
        ((((sortKeyed kr).map Prod.fst).take s.len).filterMap (fun r => r.word)).length := by
      rw [length_filterMap_word _ (fun r hr => (hwf r (htruncmem r hr)).2.2),
        List.length_take, hsortedlen]
      have h1 : 0 < corpus.length := List.length_pos.mpr hne
      omega
    intro hcon
    rw [hcon] at hpos
    simp at hpos
  · intro x hx
    rw [List.mem_filterMap] at hx
    obtain ⟨r, hr, hrx⟩ := hx
    exact ⟨r, htruncmem r hr, hrx⟩
  · simp [Game.new_target, hkr]

/-- Witness for C4 at a concrete input: the default settings over a one-record
corpus select exactly `min(60, 1) = 1` word. -/
theorem select_word_count_witness :
    ([sampleRecord] : List CorpusRecord) ≠ [] ∧ 1 ≤ GameSettings.default.len ∧
      (∀ r ∈ ([sampleRecord] : List CorpusRecord), WellFormed r) ∧
      ∃ ws : List String,
        ws.length = min GameSettings.default.len [sampleRecord].length ∧ ws ≠ [] ∧
        (∀ x ∈ ws, ∃ r, r ∈ [sampleRecord] ∧ r.word = some x) ∧
        Game.new_target GameSettings.default [sampleRecord] (fun _ => 1000) =
          joinWords ws := by
  have hwf : ∀ r ∈ ([sampleRecord] : List CorpusRecord), WellFormed r := by
    intro r hr
    rw [List.mem_singleton] at hr
    subst hr
    exact ⟨⟨"core", rfl, Or.inl rfl⟩, ⟨false, rfl⟩, ⟨"toki", rfl⟩⟩
  exact ⟨by simp, by decide,  hwf,
    select_word_count GameSettings.default [sampleRecord] (fun _ => 1000)
      (by simp) (by decide) hwf⟩

/-- C5, counterexample: a corpus containing a record without a `word` field
makes the whole selection abort (the `expect("failed to get word field")`
panic inside the sort key), rather than skipping that record and selecting
from the rest. -/
theorem missing_word_abort_concrete :
    Game.new_target GameSettings.default [sampleRecord, noWordRecord]
      (fun _ => 1000) = none := by
  decide

/-- C5 (amended): a corpus record lacking a `word` field makes the weight
computation of the sorting pass panic, aborting selection entirely; the later
word-extraction `filter_map`, which would skip such an entry, is never reached
with one present. -/
theorem missing_word_aborts (s : GameSettings) (corpus : List CorpusRecord)
    (jitter : Nat → Nat) (r : CorpusRecord) (hr : r ∈ corpus)
    (hw : r.word = none) : Game.new_target s corpus jitter = none := by
  rw [Game.new_target, keyedRecords_none_of_no_word s jitter r hw corpus hr 0]

/-- Witness for C5's amended claim at a concrete corpus. -/
theorem missing_word_aborts_witness :
    noWordRecord ∈ [sampleRecord, noWordRecord] ∧ noWordRecord.word = none ∧
      Game.new_target GameSettings.default [sampleRecord, noWordRecord]
        (fun _ => 999) = none :=
  ⟨by simp, rfl,
   missing_word_aborts GameSettings.default [sampleRecord, noWordRecord]
     (fun _ => 999) noWordRecord (by simp) rfl⟩

/-- C8, counterexample: with strictly positive multipliers whose product
overflows the 64-bit machine word (category weight 2^32, non-deprecated
multiplier 2^32, default per-word weight 1000, jitter 1000) the computed
`usize` weight is 0 — neither the stated product nor strictly positive. -/
theorem weight_overflow_zero :
    recordKey { GameSettings.default with core := 2 ^ 32, nondeprecated := 2 ^ 32 }
      sampleRecord 1000 = some 0 := by
  decide

/-- C8 (amended): for a record with a recognized category, a deprecation flag
and a word field, strictly positive category/deprecation/per-word multipliers
and a jitter sample in the 900–1100 permille range, and provided the product
fits in the 64-bit machine word, the computed weight equals
`category * deprecation * perword * jitter` and is strictly positive. -/
theorem weight_product_positive (s : GameSettings) (r : CorpusRecord) (j : Nat)
    (cw dw ww : Nat)
    (hcw : categoryWeight s r = some cw)
    (hdw : deprecatedWeight s r = some dw)
    (hww : wordWeight s r = some ww)
    (hcw0 : 0 < cw) (hdw0 : 0 < dw) (hww0 : 0 < ww)
    (hj1 : 900 ≤ j) (hj2 : j < 1100)
    (hfit : cw * dw * ww * j < USIZE) :
    recordKey s r j = some (cw * dw * ww * j) ∧ 0 < cw * dw * ww * j := by
  constructor
  · rw [recordKey, hcw, hdw, hww]
    simp [Nat.mod_eq_of_lt hfit]
  · have hj0 : 0 < j := by omega
    positivity

/-- Witness for C8's amended claim: default settings, the sample record and
jitter 1000 give weight `1000 * 1000 * 1000 * 1000`, strictly positive. -/
theorem weight_product_positive_witness :
    recordKey GameSettings.default sampleRecord 1000 =
        some (1000 * 1000 * 1000 * 1000) ∧
      0 < 1000 * 1000 * 1000 * 1000 :=
  weight_product_positive GameSettings.default sampleRecord 1000 1000 1000 1000
    (by decide) (by decide) (by decide) (by decide) (by decide) (by decide)
    (by decide) (by decide) (by decide)

end TokiPona
